import Mathlib

/-!
Verification of the background task runner and progress estimator of the
LoveTranscriber desktop application (src/main.py).

The embedding models the pure coordination logic of the program:
* `set_progress`, `auto_creep_progress` — the display-value updates of
  `ProgressButton` (src/main.py lines 179-201);
* `monitor_pct` — the download-percentage computation of
  `DownloadMonitor.run` (lines 267-276);
* `run` — the event trace of `WorkThread.run` (lines 295-380), driven by
  an environment `Env` recording the outcomes of each external call
  (snapshot download, filesystem checks, model construction, backend
  segments) and by a cooperative-cancellation flag read at the three
  checkpoint sites of the source.

Python floats are modelled as exact rationals, Python `int()` truncation
as `pyInt` (truncation toward zero), and the Qt signal emissions as an
explicit list of `Event` values in emission order.
-/

namespace LoveTranscriber

/-- Python `int()` on a rational: truncation toward zero. -/
def pyInt (q : ℚ) : ℤ := if 0 ≤ q then ⌊q⌋ else ⌈q⌉

/-- Model of `ProgressButton.set_progress` (src/main.py lines 179-181): the stored
progress is overwritten only when the new value is strictly larger. -/
def set_progress (p value : ℚ) : ℚ := if value > p then value else p

/-- The increment chosen by `ProgressButton.auto_creep_progress`
(src/main.py lines 194-196): 0.1 in the loading band [40,49), 0.05 in the
inference band [50,98), otherwise 0. -/
def creepIncrement (p : ℚ) : ℚ :=
  if 40 ≤ p ∧ p < 49 then 1/10
  else if 50 ≤ p ∧ p < 98 then 1/20
  else 0

/-- First clamp of `auto_creep_progress` (line 199): when the tick started
below 50 and the new value reached 49.9, snap back to 49.9. -/
def clampLoad (current p1 : ℚ) : ℚ :=
  if current < 50 ∧ 499/10 ≤ p1 then 499/10 else p1

/-- Second clamp of `auto_creep_progress` (line 200): values at or above
99 are snapped to 99. -/
def clampTop (p2 : ℚ) : ℚ := if 99 ≤ p2 then 99 else p2

/-- Model of `ProgressButton.auto_creep_progress` (src/main.py lines 192-201). -/
def auto_creep_progress (p : ℚ) : ℚ :=
  if 0 < creepIncrement p then clampTop (clampLoad p (p + creepIncrement p))
  else p

/-- The percentage computed by one polling iteration of
`DownloadMonitor.run` (src/main.py lines 269-273): `pct = 0`, then if the
expected size is positive `pct = int((current_mb / expected_mb) * 39)`
capped at 39. -/
def monitor_pct (currentMb expectedMb : ℤ) : ℤ :=
  if 0 < expectedMb then
    if 39 < pyInt ((currentMb : ℚ) / (expectedMb : ℚ) * 39) then 39
    else pyInt ((currentMb : ℚ) / (expectedMb : ℚ) * 39)
  else 0

/-- clamp to [0,1], used only by the spec-side formula below. -/
def clamp01 (q : ℚ) : ℚ := max 0 (min q 1)

/-- Spec-side definition, for the refinement comparison of the download
phase: `display = floor(clamp(measured/expected, 0, 1) * phase_span) +
phase_offset` with `phase_offset = 0`, `phase_span = 39` for the download
phase, and 0 when no positive expected size is available. -/
def specDownloadPct (measured expected : ℚ) : ℤ :=
  if 0 < expected then ⌊clamp01 (measured / expected) * 39⌋ else 0

/-- The model tiers of `MODEL_MAP` (src/main.py lines 139-151). -/
inductive ModelCode
  | medium
  | base
  | largeV3
  | small
deriving DecidableEq

/-- Model of `MODEL_MAP` (src/main.py lines 139-144). -/
def repoId : ModelCode → String
  | ModelCode.medium => "systran/faster-whisper-medium"
  | ModelCode.base => "systran/faster-whisper-base"
  | ModelCode.largeV3 => "systran/faster-whisper-large-v3"
  | ModelCode.small => "systran/faster-whisper-small"

/-- Model of `MODEL_EXPECTED_SIZE` (src/main.py lines 146-151); every tier is a key,
so the `.get` default 1000 of line 307 is never taken. -/
def expectedMbOf : ModelCode → ℤ
  | ModelCode.medium => 1500
  | ModelCode.base => 145
  | ModelCode.largeV3 => 3050
  | ModelCode.small => 480

/-- The directory name `f"models--{repo_id.replace('/', '--')}"` of
src/main.py line 303, evaluated for each fixed repo id of `MODEL_MAP`. -/
def modelDirName : ModelCode → String
  | ModelCode.medium => "models--systran--faster-whisper-medium"
  | ModelCode.base => "models--systran--faster-whisper-base"
  | ModelCode.largeV3 => "models--systran--faster-whisper-large-v3"
  | ModelCode.small => "models--systran--faster-whisper-small"

/-- A transcription segment as consumed by the loop of src/main.py lines
366-372: only `segment.end` and `segment.text` are read. -/
structure Segment where
  endTime : ℚ
  text : String
deriving DecidableEq

/-- Outcomes of the external calls made by `WorkThread.run`, one field per
call site, in the order the source performs them.  `none` for the two
`Option String` exception fields means the call returned normally; `some m`
means it raised an exception whose `str()` is `m`. -/
structure Env where
  baseDir : String
  modelCode : ModelCode
  dlError : Option String
  dirExistsAfterDl : Bool
  cacheSizeMb : ℚ
  dirExistsBeforeLoad : Bool
  loadError : Option String
  dirExistsAtCleanup : Bool
  transcribeError : Option String
  duration : ℚ
  segments : List Segment

/-- Model of `model_dir` of src/main.py lines 302-303 (path separator abstracted
as "/"). -/
def modelDir (env : Env) : String :=
  env.baseDir ++ "/models/" ++ modelDirName env.modelCode

/-- One Qt signal emission of `WorkThread` (src/main.py lines 281-286). -/
inductive Event
  | status (s : String)
  | progress (v : ℤ)
  | stage (s : String)
  | result (t : String)
  | error (m : String)
  | monitor (starting : Bool) (dir : String) (mb : ℤ)
deriving DecidableEq

/-- Terminal state of one execution of `WorkThread.run`. -/
inductive Outcome
  | success (t : String)
  | failed (m : String)
  | cancelled
deriving DecidableEq

/-- Result of one execution of `WorkThread.run`: the emitted events in
order, the outcome, and the directories passed to `shutil.rmtree`. -/
structure RunResult where
  events : List Event
  outcome : Outcome
  rmtreeCalls : List String
deriving DecidableEq

/-- The message of the exception raised at src/main.py line 324. -/
def dlFailMsg (m : String) : String := "下载失败: " ++ m ++ "\n请检查网络连接。"

/-- The message of the exception raised at src/main.py line 335. -/
def dirMissingMsg (env : Env) : String := "错误：模型文件夹未找到\n" ++ modelDir env

/-- The message of the exception raised at src/main.py line 349. -/
def loadFailMsg (m : String) : String :=
  "模型加载失败（文件已自动清理）。\n请【点击开始】重新尝试。\n错误: " ++ m

/-- The per-segment loop of src/main.py lines 366-372: before each segment
the cooperative flag is read (checkpoint index `k`); then the segment text
is appended and, when the reported duration is positive, one progress event
`50 + int((segment.end / total_duration) * 48)` is emitted.  Returns the
emitted events, the accumulated text, and whether the loop ran to
completion (`false` = cancelled). -/
def segLoop (flag : ℕ → Bool) (dur : ℚ) :
    List Segment → ℕ → String → List Event × String × Bool
  | [], _, acc => ([], acc, true)
  | s :: rest, k, acc =>
    if flag k then
      let r := segLoop flag dur rest (k + 1) (acc ++ s.text)
      ((if 0 < dur then [Event.progress (50 + pyInt (s.endTime / dur * 48))] else []) ++ r.1,
        r.2.1, r.2.2)
    else ([], acc, false)

/-- Phase 3 of `WorkThread.run` (src/main.py lines 355-376): the
transcription call, the segment loop and, on completion, the final
`progress(100)`, status and `result` emissions. -/
def inferPhase (env : Env) (flag : ℕ → Bool) : RunResult :=
  match env.transcribeError with
  | some m => ⟨[Event.status "🎧 正在分析语音内容..."], Outcome.failed m, []⟩
  | none =>
    let r := segLoop flag env.duration env.segments 2 ""
    if r.2.2 then
      ⟨[Event.status "🎧 正在分析语音内容...", Event.status "📝 正在生成文字..."] ++ r.1 ++
          [Event.progress 100, Event.status "✅ 转换完成！", Event.result r.2.1],
        Outcome.success r.2.1, []⟩
    else
      ⟨[Event.status "🎧 正在分析语音内容...", Event.status "📝 正在生成文字..."] ++ r.1,
        Outcome.cancelled, []⟩

/-- Phase 2 of `WorkThread.run` (src/main.py lines 334-353): the existence
check, the `WhisperModel` construction with its cache-cleanup handler
(lines 344-349), the checkpoint of line 351, and the transition into the
recognition stage. -/
def loadPhase (env : Env) (flag : ℕ → Bool) : RunResult :=
  if env.dirExistsBeforeLoad then
    match env.loadError with
    | some m =>
      ⟨[], Outcome.failed (loadFailMsg m),
        if env.dirExistsAtCleanup then [modelDir env] else []⟩
    | none =>
      if flag 1 then
        let r := inferPhase env flag
        ⟨[Event.stage "识别中 {0}%", Event.progress 50] ++ r.events, r.outcome, r.rmtreeCalls⟩
      else ⟨[], Outcome.cancelled, []⟩
  else ⟨[], Outcome.failed (dirMissingMsg env), []⟩

/-- The checkpoint of src/main.py line 327 followed by the transition into
the loading stage (lines 328-332). -/
def afterDlPhase (env : Env) (flag : ℕ → Bool) : RunResult :=
  if flag 0 then
    let r := loadPhase env flag
    ⟨[Event.stage "加载中 {0}%", Event.progress 40,
        Event.status "🧠 正在唤醒 AI 引擎..."] ++ r.events, r.outcome, r.rmtreeCalls⟩
  else ⟨[], Outcome.cancelled, []⟩

/-- The body of the `try` block of `WorkThread.run` (src/main.py lines
296-376): the initial status and monitor emissions, the download attempt
with its degraded-mode handler (lines 310-324), and the later phases.  A
`failed` outcome stands for an exception propagating to the handler of
line 378. -/
def runBody (env : Env) (flag : ℕ → Bool) : RunResult :=
  let head : List Event := [Event.status "⏳ 正在校验模型...",
    Event.monitor true (modelDir env) (expectedMbOf env.modelCode)]
  match env.dlError with
  | none =>
    let r := afterDlPhase env flag
    ⟨head ++ [Event.monitor false "" 0] ++ r.events, r.outcome, r.rmtreeCalls⟩
  | some m =>
    if env.dirExistsAfterDl = true ∧ (expectedMbOf env.modelCode : ℚ) * (8/10) < env.cacheSizeMb then
      let r := afterDlPhase env flag
      ⟨head ++ [Event.monitor false "" 0,
          Event.status "⚠️ 网络微恙，尝试使用本地缓存...",
          Event.monitor false "" 0] ++ r.events, r.outcome, r.rmtreeCalls⟩
    else
      ⟨head ++ [Event.monitor false "" 0], Outcome.failed (dlFailMsg m), []⟩

/-- Model of `WorkThread.run` (src/main.py lines 295-380): the `try` body plus the
exception handler of lines 378-380, which emits one final monitor-stop and
one `error` event. -/
def run (env : Env) (flag : ℕ → Bool) : RunResult :=
  let r := runBody env flag
  match r.outcome with
  | Outcome.failed m =>
    ⟨r.events ++ [Event.monitor false "" 0, Event.error m], Outcome.failed m, r.rmtreeCalls⟩
  | _ => r

/-- Whether an event is terminal (`result` or `error`). -/
def isTerminal : Event → Bool
  | Event.result _ => true
  | Event.error _ => true
  | _ => false

/-- The value carried by a `progress` event, if any. -/
def progressOf : Event → Option ℤ
  | Event.progress v => some v
  | _ => none

/-- The values of the `progress` events of a trace, in order. -/
def progressValues (evs : List Event) : List ℤ :=
  evs.filterMap progressOf

/-- The progress events of the segment loop, as a pure function of the
backend data (duration and segments). -/
def segEvents (dur : ℚ) (segs : List Segment) : List Event :=
  if 0 < dur then
    segs.map fun s => Event.progress (50 + pyInt (s.endTime / dur * 48))
  else []

/-- One update of the displayed value of `ProgressButton` on the UI side:
either `set_progress` with a worker-emitted integer, or one synthetic
creep tick of the 100 ms timer. -/
inductive UiStep
  | sp (v : ℤ)
  | creep

/-- Apply one UI-side update to the displayed value. -/
def uiApply (p : ℚ) : UiStep → ℚ
  | UiStep.sp v => set_progress p (v : ℚ)
  | UiStep.creep => auto_creep_progress p

/-- The connectivity remediation hint contained in the download-failure
message. -/
def hintString : String := "请检查网络连接"

/-- The all-true cancellation flag: `stop()` is never called. -/
def flagOn : ℕ → Bool := fun _ => true

/-- A flag that is false from the first read on: cancellation requested
before the first checkpoint. -/
def flagOff : ℕ → Bool := fun _ => false

/-- A successful sample environment: no failures, duration 10 with two
segments. -/
def envOk : Env :=
  ⟨"C:/app", ModelCode.base, none, true, 0, true, none, false, none, 10,
    [⟨5, "你好"⟩, ⟨10, "世界"⟩]⟩

/-- An environment whose backend reports a segment ending beyond the
reported total duration (duration 1, a single segment ending at 10). -/
def envOverrun : Env :=
  ⟨"C:/app", ModelCode.base, none, true, 0, true, none, false, none, 1,
    [⟨10, "x"⟩]⟩

/-- A sample environment whose model construction raises. -/
def envLoadCrash : Env :=
  ⟨"C:/app", ModelCode.base, none, true, 0, true, some "boom", true, none, 10,
    [⟨5, "你好"⟩]⟩

/-- A sample environment whose download raises with too small a cache. -/
def envDlFail : Env :=
  ⟨"C:/app", ModelCode.base, some "timeout", true, 10, true, none, false, none, 10,
    [⟨5, "你好"⟩]⟩

/-! ### Helper lemmas -/

theorem pyInt_of_nonneg {q : ℚ} (h : 0 ≤ q) : pyInt q = ⌊q⌋ := if_pos h

theorem pyInt_le {q : ℚ} {z : ℤ} (h : q ≤ (z : ℚ)) : pyInt q ≤ z := by
  unfold pyInt
  split
  · exact le_of_le_of_eq (Int.floor_mono h) (Int.floor_intCast z)
  · exact Int.ceil_le.mpr h

theorem pyInt_nonneg {q : ℚ} (h : 0 ≤ q) : 0 ≤ pyInt q := by
  rw [pyInt_of_nonneg h]
  exact Int.floor_nonneg.mpr h

theorem le_set_progress (p v : ℚ) : p ≤ set_progress p v := by
  unfold set_progress
  split
  · next h => exact le_of_lt h
  · exact le_refl p

theorem scanl_head {α β : Type} (f : β → α → β) (b : β) (l : List α) :
    (List.scanl f b l).head? = some b := by
  cases l <;> simp [List.scanl]

theorem chain'_scanl_set_progress :
    ∀ (l : List ℚ) (p : ℚ), List.Chain' (· ≤ ·) (List.scanl set_progress p l)
  | [], p => by simp
  | v :: l, p => by
    rw [List.scanl_cons, List.singleton_append]
    refine List.chain'_cons'.mpr ⟨?_, chain'_scanl_set_progress l (set_progress p v)⟩
    intro y hy
    rw [scanl_head] at hy
    cases hy
    exact le_set_progress p v

theorem creep_band1 {p : ℚ} (h1 : 40 ≤ p) (h2 : p < 49) :
    auto_creep_progress p = p + 1/10 := by
  have hinc : creepIncrement p = 1/10 := if_pos ⟨h1, h2⟩
  have hload : clampLoad p (p + 1/10) = p + 1/10 := by
    unfold clampLoad
    rw [if_neg (by rintro ⟨-, hx⟩; linarith)]
  have htop : clampTop (p + 1/10) = p + 1/10 := by
    unfold clampTop
    rw [if_neg (by intro hx; linarith)]
  unfold auto_creep_progress
  rw [hinc, if_pos (by norm_num : (0:ℚ) < 1/10), hload, htop]

theorem creep_band2 {p : ℚ} (h1 : 50 ≤ p) (h2 : p < 98) :
    auto_creep_progress p = p + 1/20 := by
  have hinc : creepIncrement p = 1/20 := by
    unfold creepIncrement
    rw [if_neg (by rintro ⟨-, hx⟩; linarith), if_pos ⟨h1, h2⟩]
  have hload : clampLoad p (p + 1/20) = p + 1/20 := by
    unfold clampLoad
    rw [if_neg (by rintro ⟨hx, -⟩; linarith)]
  have htop : clampTop (p + 1/20) = p + 1/20 := by
    unfold clampTop
    rw [if_neg (by intro hx; linarith)]
  unfold auto_creep_progress
  rw [hinc, if_pos (by norm_num : (0:ℚ) < 1/20), hload, htop]

theorem creep_off {p : ℚ} (h1 : ¬(40 ≤ p ∧ p < 49)) (h2 : ¬(50 ≤ p ∧ p < 98)) :
    auto_creep_progress p = p := by
  have hinc : creepIncrement p = 0 := by
    unfold creepIncrement
    rw [if_neg h1, if_neg h2]
  simp [auto_creep_progress, hinc]

theorem creep_lt_load_cap {p : ℚ} (hp : p < 491/10) :
    auto_creep_progress p < 491/10 := by
  by_cases h1 : 40 ≤ p ∧ p < 49
  · rw [creep_band1 h1.1 h1.2]; linarith [h1.2]
  · by_cases h2 : 50 ≤ p ∧ p < 98
    · linarith [h2.1]
    · rw [creep_off h1 h2]; exact hp

theorem creep_lt_infer_cap {p : ℚ} (hp : p < 1961/20) :
    auto_creep_progress p < 1961/20 := by
  by_cases h1 : 40 ≤ p ∧ p < 49
  · rw [creep_band1 h1.1 h1.2]; linarith [h1.2]
  · by_cases h2 : 50 ≤ p ∧ p < 98
    · rw [creep_band2 h2.1 h2.2]; linarith [h2.2]
    · rw [creep_off h1 h2]; exact hp

theorem iterate_inv (f : ℚ → ℚ) (P : ℚ → Prop) (hP : ∀ q, P q → P (f q)) :
    ∀ (n : ℕ) (p : ℚ), P p → P (f^[n] p)
  | 0, p, hp => hp
  | n + 1, p, hp => by
    rw [Function.iterate_succ_apply']
    exact hP _ (iterate_inv f P hP n p hp)

/-! ### Claims C1, C5, C6, C7 -/

/-- C1: `ProgressButton.set_progress(v)` stores the new value only when it
is strictly greater than the current one, so the stored value after a call
is the maximum of the old value and `v`, and along any sequence of updates
the successive displayed values form a non-decreasing chain. -/
theorem C1_set_progress_clamps_decreases :
    (∀ p v : ℚ, set_progress p v = max p v) ∧
    ∀ (p : ℚ) (updates : List ℚ),
      List.Chain' (· ≤ ·) (List.scanl set_progress p updates) := by
  refine ⟨fun p v => ?_, fun p updates => chain'_scanl_set_progress updates p⟩
  unfold set_progress
  rcases le_or_lt v p with h | h
  · rw [if_neg (not_lt.mpr h)]
    exact (max_eq_left h).symm
  · rw [if_pos h]
    exact (max_eq_right h.le).symm

/-- C5: each download-phase percentage computed by `DownloadMonitor.run`
equals `floor(clamp(measured/expected, 0, 1) * 39)` when the expected size
is positive and 0 otherwise; it lies in [0, 39], is monotone in the
measured size, and for the 50MB scenario rises from 7 (≈8) at 10MB to 39
at 50MB. -/
theorem C5_download_pct_clamped_formula (c e : ℤ) (hc : 0 ≤ c) :
    monitor_pct c e = specDownloadPct (c : ℚ) (e : ℚ) ∧
    0 ≤ monitor_pct c e ∧ monitor_pct c e ≤ 39 ∧
    (∀ c' : ℤ, c ≤ c' → monitor_pct c e ≤ monitor_pct c' e) ∧
    monitor_pct 10 50 = 7 ∧ monitor_pct 50 50 = 39 := by
  have hc0 : (0 : ℚ) ≤ (c : ℚ) := by exact_mod_cast hc
  have key : ∀ d : ℤ, (0 : ℚ) ≤ (d : ℚ) →
      monitor_pct d e = specDownloadPct (d : ℚ) (e : ℚ) := by
    intro d hd
    by_cases he : 0 < e
    · have he' : (0 : ℚ) < (e : ℚ) := by exact_mod_cast he
      have hx : (0 : ℚ) ≤ (d : ℚ) / (e : ℚ) := div_nonneg hd he'.le
      have hx39 : (0 : ℚ) ≤ (d : ℚ) / (e : ℚ) * 39 := mul_nonneg hx (by norm_num)
      simp only [monitor_pct, specDownloadPct, if_pos he, if_pos he']
      by_cases hle : (d : ℚ) / (e : ℚ) ≤ 1
      · have hcl : clamp01 ((d : ℚ) / (e : ℚ)) = (d : ℚ) / (e : ℚ) := by
          unfold clamp01
          rw [min_eq_left hle, max_eq_right hx]
        have hbound : ⌊(d : ℚ) / (e : ℚ) * 39⌋ ≤ 39 := by
          have h39 : (d : ℚ) / (e : ℚ) * 39 ≤ ((39 : ℤ) : ℚ) := by push_cast; nlinarith
          exact le_of_le_of_eq (Int.floor_mono h39) (Int.floor_intCast 39)
        rw [hcl, pyInt_of_nonneg hx39, if_neg (not_lt.mpr hbound)]
      · push_neg at hle
        have hcl : clamp01 ((d : ℚ) / (e : ℚ)) = 1 := by
          unfold clamp01
          rw [min_eq_right hle.le]
          norm_num
        have h39 : (39 : ℤ) ≤ ⌊(d : ℚ) / (e : ℚ) * 39⌋ := by
          rw [Int.le_floor]; push_cast; nlinarith
        rw [hcl, pyInt_of_nonneg hx39, show ⌊(1 : ℚ) * 39⌋ = 39 by norm_num]
        split
        · rfl
        · next h => omega
    · have he' : ¬(0 : ℚ) < (e : ℚ) := by exact_mod_cast he
      simp only [monitor_pct, specDownloadPct, if_neg he, if_neg he']
  have range : ∀ d : ℤ, (0 : ℚ) ≤ (d : ℚ) →
      0 ≤ monitor_pct d e ∧ monitor_pct d e ≤ 39 := by
    intro d hd
    unfold monitor_pct
    split
    · next he =>
      have he' : (0 : ℚ) < (e : ℚ) := by exact_mod_cast he
      have hnn : 0 ≤ pyInt ((d : ℚ) / (e : ℚ) * 39) :=
        pyInt_nonneg (mul_nonneg (div_nonneg hd he'.le) (by norm_num))
      constructor
      · split <;> omega
      · split
        · exact le_refl 39
        · next h => omega
    · exact ⟨le_refl 0, by norm_num⟩
  refine ⟨key c hc0, (range c hc0).1, (range c hc0).2, ?_,
    by norm_num [monitor_pct, pyInt], by norm_num [monitor_pct, pyInt]⟩
  intro c' hcc
  unfold monitor_pct
  split
  · next he =>
    have he' : (0 : ℚ) < (e : ℚ) := by exact_mod_cast he
    have hcast : (c : ℚ) ≤ (c' : ℚ) := by exact_mod_cast hcc
    have hc'0 : (0 : ℚ) ≤ (c' : ℚ) := le_trans hc0 hcast
    have hdiv : (c : ℚ) / (e : ℚ) ≤ (c' : ℚ) / (e : ℚ) := by
      rw [div_eq_mul_inv, div_eq_mul_inv]
      exact mul_le_mul_of_nonneg_right hcast (inv_nonneg.mpr he'.le)
    have hle : (c : ℚ) / (e : ℚ) * 39 ≤ (c' : ℚ) / (e : ℚ) * 39 :=
      mul_le_mul_of_nonneg_right hdiv (by norm_num)
    have hmono : pyInt ((c : ℚ) / (e : ℚ) * 39) ≤ pyInt ((c' : ℚ) / (e : ℚ) * 39) := by
      rw [pyInt_of_nonneg (mul_nonneg (div_nonneg hc0 he'.le) (by norm_num)),
        pyInt_of_nonneg (mul_nonneg (div_nonneg hc'0 he'.le) (by norm_num))]
      exact Int.floor_mono hle
    split <;> split <;> omega
  · exact le_refl 0

/-- C6: starting anywhere in the loading band [40,49), iterated creep ticks
keep the displayed integer value at most 49 (50% is never shown), and
starting anywhere in the inference band [50,98) they keep it at most 99
(100% is never shown); only the runner's own snap events can move past the
ceilings. -/
theorem C6_creep_never_reaches_phase_ceiling (p : ℚ) (n : ℕ) :
    (40 ≤ p → p < 49 → ⌊auto_creep_progress^[n] p⌋ ≤ 49) ∧
    (50 ≤ p → p < 98 → ⌊auto_creep_progress^[n] p⌋ ≤ 99) := by
  constructor
  · intro h1 h2
    have hlt : auto_creep_progress^[n] p < 491/10 :=
      iterate_inv auto_creep_progress (fun q => q < 491/10)
        (fun q hq => creep_lt_load_cap hq) n p (by linarith)
    have hfl : ⌊auto_creep_progress^[n] p⌋ < 50 :=
      Int.floor_lt.mpr (by push_cast; linarith)
    omega
  · intro h1 h2
    have hlt : auto_creep_progress^[n] p < 1961/20 :=
      iterate_inv auto_creep_progress (fun q => q < 1961/20)
        (fun q hq => creep_lt_infer_cap hq) n p (by linarith)
    have hfl : ⌊auto_creep_progress^[n] p⌋ < 100 :=
      Int.floor_lt.mpr (by push_cast; linarith)
    omega

/-- C7 counterexample: two successive creep ticks from 40 both advance by
exactly 1/10 — the increments are equal, not shrinking, so a tick does not
advance by a fraction of the remaining distance to the ceiling. -/
theorem C7_counterexample_constant_increment :
    auto_creep_progress 40 - 40 = 1/10 ∧
    auto_creep_progress (auto_creep_progress 40) - auto_creep_progress 40 = 1/10 ∧
    ¬(auto_creep_progress (auto_creep_progress 40) - auto_creep_progress 40 <
        auto_creep_progress 40 - 40) := by
  have h1 : auto_creep_progress (40 : ℚ) = 40 + 1/10 :=
    creep_band1 (by norm_num) (by norm_num)
  have h2 : auto_creep_progress ((40 : ℚ) + 1/10) = (40 + 1/10) + 1/10 :=
    creep_band1 (by norm_num) (by norm_num)
  rw [h1, h2]
  norm_num

/-- C7 amended: each creep tick advances the displayed value by a fixed
constant increment — 1/10 in the loading band [40,49) and 1/20 in the
inference band [50,98) — independent of the remaining distance to the
ceiling; the advanced value still stays strictly below the phase ceiling
(49.9 for loading, 99 for inference) until the runner snaps it. -/
theorem C7_amended_fixed_increment (p : ℚ) :
    (40 ≤ p → p < 49 → auto_creep_progress p = p + 1/10 ∧ auto_creep_progress p < 499/10) ∧
    (50 ≤ p → p < 98 → auto_creep_progress p = p + 1/20 ∧ auto_creep_progress p < 99) := by
  constructor
  · intro h1 h2
    rw [creep_band1 h1 h2]
    exact ⟨rfl, by linarith⟩
  · intro h1 h2
    rw [creep_band2 h1 h2]
    exact ⟨rfl, by linarith⟩

/-! ### Lemmas about the worker's event trace -/

theorem append_isPre {α : Type} (A : List α) {l1 l2 : List α} (h : l1 <+: l2) :
    A ++ l1 <+: A ++ l2 := by
  obtain ⟨t, ht⟩ := h
  exact ⟨t, by rw [List.append_assoc, ht]⟩

theorem segLoop_allOn (flag : ℕ → Bool) (hflag : ∀ k, flag k = true) (dur : ℚ) :
    ∀ (segs : List Segment) (k : ℕ) (acc : String),
      segLoop flag dur segs k acc =
        (segEvents dur segs, List.foldl (fun a s => a ++ s.text) acc segs, true)
  | [], k, acc => by simp [segLoop, segEvents]
  | s :: rest, k, acc => by
    rw [segLoop, if_pos (hflag k), segLoop_allOn flag hflag dur rest (k + 1) (acc ++ s.text)]
    by_cases hdur : 0 < dur <;> simp [segEvents, hdur]

theorem segLoop_events_progress (flag : ℕ → Bool) (dur : ℚ) :
    ∀ (segs : List Segment) (k : ℕ) (acc : String) (e : Event),
      e ∈ (segLoop flag dur segs k acc).1 → ∃ v, e = Event.progress v
  | [], k, acc, e => by simp [segLoop]
  | s :: rest, k, acc, e => by
    rw [segLoop]
    cases hf : flag k with
    | false => simp
    | true =>
      rw [if_pos rfl]
      intro he
      rcases List.mem_append.mp he with hl | hr
      · by_cases hdur : 0 < dur
        · rw [if_pos hdur] at hl
          rw [List.mem_singleton.mp hl]
          exact ⟨_, rfl⟩
        · rw [if_neg hdur] at hl
          simp at hl
      · exact segLoop_events_progress flag dur rest (k + 1) (acc ++ s.text) e hr

theorem segLoop_trunc (flag : ℕ → Bool) (dur : ℚ) :
    ∀ (segs : List Segment) (k : ℕ) (acc : String),
      ((segLoop flag dur segs k acc).1 <+: (segLoop flagOn dur segs k acc).1) ∧
      ((segLoop flag dur segs k acc).2.2 = true →
        segLoop flag dur segs k acc = segLoop flagOn dur segs k acc)
  | [], k, acc => by simp [segLoop]
  | s :: rest, k, acc => by
    have ih := segLoop_trunc flag dur rest (k + 1) (acc ++ s.text)
    rw [segLoop, segLoop]
    cases hf : flag k with
    | false =>
      rw [if_neg (by simp : ¬(false = true))]
      exact ⟨List.nil_prefix, fun h => absurd h (by simp)⟩
    | true =>
      rw [if_pos (rfl : (true = true)), if_pos (show flagOn k = true from rfl)]
      constructor
      · exact append_isPre _ ih.1
      · intro hdone
        rw [ih.2 hdone]

theorem segEvents_shape {dur : ℚ} {segs : List Segment} {e : Event}
    (he : e ∈ segEvents dur segs) : ∃ v, e = Event.progress v := by
  unfold segEvents at he
  split at he
  · obtain ⟨s, -, rfl⟩ := List.mem_map.mp he
    exact ⟨_, rfl⟩
  · simp at he

theorem segEvents_countP (dur : ℚ) (segs : List Segment) :
    (segEvents dur segs).countP isTerminal = 0 := by
  rw [List.countP_eq_zero]
  intro a ha
  obtain ⟨v, rfl⟩ := segEvents_shape ha
  simp [isTerminal]

theorem countP_eq_one_unique {α : Type} (p : α → Bool) {l : List α}
    (h : l.countP p = 1) {a b : α} (ha : a ∈ l) (hb : b ∈ l)
    (hpa : p a = true) (hpb : p b = true) : a = b := by
  by_contra hne
  obtain ⟨s, t, rfl⟩ := List.append_of_mem ha
  rw [List.countP_append, List.countP_cons, hpa] at h
  simp at h
  rcases List.mem_append.mp hb with hbs | hbt
  · have h1 : 0 < s.countP p := List.countP_pos_iff.mpr ⟨b, hbs, hpb⟩
    omega
  · rcases List.mem_cons.mp hbt with hba | hbt'
    · exact hne hba.symm
    · have h2 : 0 < t.countP p := List.countP_pos_iff.mpr ⟨b, hbt', hpb⟩
      omega

/-! ### Claim C3 -/

/-- C3: with cancellation never requested, every run of the worker emits
exactly one terminal event — `result` on success, `error` on failure (all
modelled backend exceptions are converted into one `error` at the job
boundary) — and a trace containing an `error` event never contains a
`result` event. -/
theorem C3_exactly_one_terminal_event (env : Env) (flag : ℕ → Bool)
    (hflag : ∀ k, flag k = true) :
    (run env flag).events.countP isTerminal = 1 ∧
    ∀ m t, Event.error m ∈ (run env flag).events →
      Event.result t ∉ (run env flag).events := by
  have hcount : (run env flag).events.countP isTerminal = 1 := by
    rcases hdl : env.dlError with _ | m
    · rcases hdir : env.dirExistsBeforeLoad with _ | _
      · simp [run, runBody, afterDlPhase, loadPhase, hdl, hdir, hflag,
          List.countP_append, List.countP_cons, isTerminal]
      · rcases hload : env.loadError with _ | lm
        · rcases htr : env.transcribeError with _ | tm
          · simp [run, runBody, afterDlPhase, loadPhase, inferPhase, hdl, hdir, hload, htr,
              hflag, segLoop_allOn flag hflag, List.countP_append, List.countP_cons, isTerminal,
              segEvents_countP]
          · simp [run, runBody, afterDlPhase, loadPhase, inferPhase, hdl, hdir, hload, htr,
              hflag, List.countP_append, List.countP_cons, isTerminal]
        · simp [run, runBody, afterDlPhase, loadPhase, hdl, hdir, hload, hflag,
            List.countP_append, List.countP_cons, isTerminal]
    · by_cases hcond : env.dirExistsAfterDl = true ∧
        (expectedMbOf env.modelCode : ℚ) * (8/10) < env.cacheSizeMb
      · rcases hdir : env.dirExistsBeforeLoad with _ | _
        · simp [run, runBody, afterDlPhase, loadPhase, hdl, hcond, hdir, hflag,
            List.countP_append, List.countP_cons, isTerminal]
        · rcases hload : env.loadError with _ | lm
          · rcases htr : env.transcribeError with _ | tm
            · simp [run, runBody, afterDlPhase, loadPhase, inferPhase, hdl, hcond, hdir,
                hload, htr, hflag, segLoop_allOn flag hflag, List.countP_append, List.countP_cons,
                isTerminal, segEvents_countP]
            · simp [run, runBody, afterDlPhase, loadPhase, inferPhase, hdl, hcond, hdir,
                hload, htr, hflag, List.countP_append, List.countP_cons, isTerminal]
          · simp [run, runBody, afterDlPhase, loadPhase, hdl, hcond, hdir, hload, hflag,
              List.countP_append, List.countP_cons, isTerminal]
      · simp [run, runBody, hdl, hcond, List.countP_append, List.countP_cons, isTerminal]
  refine ⟨hcount, fun m t hm ht => ?_⟩
  have heq : Event.error m = Event.result t :=
    countP_eq_one_unique isTerminal hcount hm ht rfl rfl
  simp at heq

/-! ### Claims C9, C10, C8 -/

/-- C9: when the `WhisperModel` construction raises, the runner calls
`shutil.rmtree` on the model cache directory and then fails the job with a
single `error` event carrying the load-failure message; the run ends there
(the error is the last event, no retry, no `result`). -/
theorem C9_load_crash_removes_cache (env : Env) (flag : ℕ → Bool) (m : String)
    (hdl : env.dlError = none) (h0 : flag 0 = true)
    (hdir : env.dirExistsBeforeLoad = true) (hload : env.loadError = some m)
    (hclean : env.dirExistsAtCleanup = true) :
    (run env flag).rmtreeCalls = [modelDir env] ∧
    (run env flag).outcome = Outcome.failed (loadFailMsg m) ∧
    (run env flag).events.countP isTerminal = 1 ∧
    (run env flag).events.getLast? = some (Event.error (loadFailMsg m)) ∧
    ∀ t, Event.result t ∉ (run env flag).events := by
  simp [run, runBody, afterDlPhase, loadPhase, hdl, h0, hdir, hload, hclean,
    List.countP_append, List.countP_cons, isTerminal]

/-- C10: with no failures and no cancellation the job succeeds, and the
result text is exactly the concatenation of the segment texts in backend
order with no separators; and when the backend reports a non-positive
total duration, no per-segment progress event is emitted — the progress
events of the whole run are exactly 40, 50, 100. -/
theorem C10_result_concat_and_skip_zero_duration (env : Env) (flag : ℕ → Bool)
    (hflag : ∀ k, flag k = true) (hdl : env.dlError = none)
    (hdir : env.dirExistsBeforeLoad = true) (hload : env.loadError = none)
    (htr : env.transcribeError = none) :
    (run env flag).outcome =
      Outcome.success (List.foldl (fun a s => a ++ s.text) "" env.segments) ∧
    (env.duration ≤ 0 → progressValues (run env flag).events = [40, 50, 100]) := by
  constructor
  · simp [run, runBody, afterDlPhase, loadPhase, inferPhase, hdl, hdir, hload, htr,
      hflag, segLoop_allOn flag hflag]
  · intro hd
    have hd' : ¬0 < env.duration := not_lt.mpr hd
    simp [run, runBody, afterDlPhase, loadPhase, inferPhase, hdl, hdir, hload, htr,
      hflag, segLoop_allOn flag hflag, progressValues, progressOf, segEvents, hd']

/-- Any event of the `try`-block trace is an event of the full run
trace. -/
theorem runBody_events_mem_run {env : Env} {flag : ℕ → Bool} {e : Event}
    (he : e ∈ (runBody env flag).events) : e ∈ (run env flag).events := by
  cases h : (runBody env flag).outcome with
  | success t => simp [run, h, he]
  | failed m => simp [run, h, he]
  | cancelled => simp [run, h, he]

/-- C8: when the snapshot download raises, the job continues in degraded
mode (the local-cache status event is emitted) exactly when the model
directory exists and its measured size exceeds 80% of the tier's expected
size; otherwise the job fails with the download-failure message, which
contains the connectivity remediation hint. -/
theorem C8_degraded_mode_iff_cache_viable (env : Env) (flag : ℕ → Bool) (m : String)
    (hdl : env.dlError = some m) :
    ((Event.status "⚠️ 网络微恙，尝试使用本地缓存..." ∈ (run env flag).events) ↔
      (env.dirExistsAfterDl = true ∧
        (expectedMbOf env.modelCode : ℚ) * (8/10) < env.cacheSizeMb)) ∧
    (¬(env.dirExistsAfterDl = true ∧
        (expectedMbOf env.modelCode : ℚ) * (8/10) < env.cacheSizeMb) →
      (run env flag).outcome = Outcome.failed (dlFailMsg m) ∧
      ∃ a b : String, dlFailMsg m = a ++ hintString ++ b) := by
  by_cases hcond : env.dirExistsAfterDl = true ∧
      (expectedMbOf env.modelCode : ℚ) * (8/10) < env.cacheSizeMb
  · refine ⟨⟨fun _ => hcond, fun _ => ?_⟩, fun hn => absurd hcond hn⟩
    apply runBody_events_mem_run
    simp [runBody, hdl, hcond]
  · constructor
    · rw [iff_false_intro hcond, iff_false]
      intro hmem
      simp [run, runBody, hdl, hcond] at hmem
    · intro _
      refine ⟨by simp [run, runBody, hdl, hcond], "下载失败: " ++ m ++ "\n", "。", ?_⟩
      unfold dlFailMsg hintString
      simp only [String.append_assoc]
      congr 1

/-! ### Claim C4: cancellation -/

theorem inferPhase_cancelled (env : Env) (flag : ℕ → Bool)
    (hc : (inferPhase env flag).outcome = Outcome.cancelled) :
    (∀ m, Event.error m ∉ (inferPhase env flag).events) ∧
    (∀ t, Event.result t ∉ (inferPhase env flag).events) ∧
    (inferPhase env flag).events <+: (inferPhase env flagOn).events := by
  cases htr : env.transcribeError with
  | some m => simp [inferPhase, htr] at hc
  | none =>
    cases hdone : (segLoop flag env.duration env.segments 2 "").2.2 with
    | true => simp [inferPhase, htr, hdone] at hc
    | false =>
      have hseg := segLoop_trunc flag env.duration env.segments 2 ""
      have hOn := segLoop_allOn flagOn (fun _ => rfl) env.duration env.segments 2 ""
      have hmem : ∀ e, e ∈ (inferPhase env flag).events →
          e = Event.status "🎧 正在分析语音内容..." ∨
          e = Event.status "📝 正在生成文字..." ∨ ∃ v, e = Event.progress v := by
        intro e hme
        simp only [inferPhase, htr, hdone, Bool.false_eq_true, if_false] at hme
        rcases List.mem_append.mp hme with hl | hr
        · rcases List.mem_cons.mp hl with h | h
          · exact Or.inl h
          · exact Or.inr (Or.inl (List.mem_singleton.mp h))
        · exact Or.inr (Or.inr
            (segLoop_events_progress flag env.duration env.segments 2 "" e hr))
      refine ⟨fun m hm => ?_, fun t ht => ?_, ?_⟩
      · rcases hmem _ hm with h | h | ⟨v, h⟩ <;> simp at h
      · rcases hmem _ ht with h | h | ⟨v, h⟩ <;> simp at h
      · have hOn22 : (segLoop flagOn env.duration env.segments 2 "").2.2 = true := by
          rw [hOn]
        have hLHS : (inferPhase env flag).events =
            [Event.status "🎧 正在分析语音内容...", Event.status "📝 正在生成文字..."] ++
              (segLoop flag env.duration env.segments 2 "").1 := by
          simp only [inferPhase, htr, hdone, Bool.false_eq_true, if_false]
        have hRHS : (inferPhase env flagOn).events =
            [Event.status "🎧 正在分析语音内容...", Event.status "📝 正在生成文字..."] ++
              (segLoop flagOn env.duration env.segments 2 "").1 ++
              [Event.progress 100, Event.status "✅ 转换完成！",
                Event.result (segLoop flagOn env.duration env.segments 2 "").2.1] := by
          simp only [inferPhase, htr, hOn22, if_true]
        rw [hLHS, hRHS, List.append_assoc]
        exact append_isPre _ (hseg.1.trans (List.prefix_append _ _))

theorem loadPhase_cancelled (env : Env) (flag : ℕ → Bool)
    (hc : (loadPhase env flag).outcome = Outcome.cancelled) :
    (∀ m, Event.error m ∉ (loadPhase env flag).events) ∧
    (∀ t, Event.result t ∉ (loadPhase env flag).events) ∧
    (loadPhase env flag).events <+: (loadPhase env flagOn).events := by
  cases hdir : env.dirExistsBeforeLoad with
  | false => simp [loadPhase, hdir] at hc
  | true =>
    cases hload : env.loadError with
    | some m => simp [loadPhase, hdir, hload] at hc
    | none =>
      cases h1 : flag 1 with
      | false =>
        simp only [loadPhase, hdir, hload, h1, Bool.false_eq_true, if_false, if_true]
        exact ⟨by simp, by simp, List.nil_prefix⟩
      | true =>
        have hci : (inferPhase env flag).outcome = Outcome.cancelled := by
          simpa [loadPhase, hdir, hload, h1] using hc
        obtain ⟨hne, hnr, hpre⟩ := inferPhase_cancelled env flag hci
        simp only [loadPhase, hdir, hload, h1, if_true]
        refine ⟨fun m hm => ?_, fun t ht => ?_, ?_⟩
        · rcases List.mem_append.mp hm with h | h
          · simp at h
          · exact hne m h
        · rcases List.mem_append.mp ht with h | h
          · simp at h
          · exact hnr t h
        · exact append_isPre _ hpre

theorem afterDlPhase_cancelled (env : Env) (flag : ℕ → Bool)
    (hc : (afterDlPhase env flag).outcome = Outcome.cancelled) :
    (∀ m, Event.error m ∉ (afterDlPhase env flag).events) ∧
    (∀ t, Event.result t ∉ (afterDlPhase env flag).events) ∧
    (afterDlPhase env flag).events <+: (afterDlPhase env flagOn).events := by
  cases h0 : flag 0 with
  | false =>
    simp only [afterDlPhase, h0, Bool.false_eq_true, if_false]
    exact ⟨by simp, by simp, List.nil_prefix⟩
  | true =>
    have hcl : (loadPhase env flag).outcome = Outcome.cancelled := by
      simpa [afterDlPhase, h0] using hc
    obtain ⟨hne, hnr, hpre⟩ := loadPhase_cancelled env flag hcl
    simp only [afterDlPhase, h0, if_true]
    refine ⟨fun m hm => ?_, fun t ht => ?_, ?_⟩
    · rcases List.mem_append.mp hm with h | h
      · simp at h
      · exact hne m h
    · rcases List.mem_append.mp ht with h | h
      · simp at h
      · exact hnr t h
    · exact append_isPre _ hpre

theorem runBody_cancelled (env : Env) (flag : ℕ → Bool)
    (hc : (runBody env flag).outcome = Outcome.cancelled) :
    (∀ m, Event.error m ∉ (runBody env flag).events) ∧
    (∀ t, Event.result t ∉ (runBody env flag).events) ∧
    (runBody env flag).events <+: (runBody env flagOn).events := by
  cases hdl : env.dlError with
  | none =>
    have hca : (afterDlPhase env flag).outcome = Outcome.cancelled := by
      simpa [runBody, hdl] using hc
    obtain ⟨hne, hnr, hpre⟩ := afterDlPhase_cancelled env flag hca
    simp only [runBody, hdl]
    refine ⟨fun m hm => ?_, fun t ht => ?_, ?_⟩
    · rcases List.mem_append.mp hm with h | h
      · rcases List.mem_append.mp h with h' | h' <;> simp at h'
      · exact hne m h
    · rcases List.mem_append.mp ht with h | h
      · rcases List.mem_append.mp h with h' | h' <;> simp at h'
      · exact hnr t h
    · rw [List.append_assoc, List.append_assoc]
      exact append_isPre _ (append_isPre _ hpre)
  | some m =>
    by_cases hcond : env.dirExistsAfterDl = true ∧
        (expectedMbOf env.modelCode : ℚ) * (8/10) < env.cacheSizeMb
    · have hca : (afterDlPhase env flag).outcome = Outcome.cancelled := by
        simpa [runBody, hdl, hcond] using hc
      obtain ⟨hne, hnr, hpre⟩ := afterDlPhase_cancelled env flag hca
      simp only [runBody, hdl, hcond, and_self, if_true]
      refine ⟨fun m' hm => ?_, fun t ht => ?_, ?_⟩
      · rcases List.mem_append.mp hm with h | h
        · rcases List.mem_append.mp h with h' | h' <;> simp at h'
        · exact hne m' h
      · rcases List.mem_append.mp ht with h | h
        · rcases List.mem_append.mp h with h' | h' <;> simp at h'
        · exact hnr t h
      · rw [List.append_assoc, List.append_assoc]
        exact append_isPre _ (append_isPre _ hpre)
    · simp [runBody, hdl, hcond] at hc

/-- C4: whenever a run's outcome is cancellation (the cooperative flag was
read false at one of the source's checkpoints), its trace contains no
`error` and no `result` event — a cancelled job is never surfaced as an
error — and the trace is a prefix of the trace of the same uncancelled
job, so nothing further is delivered after the acknowledging checkpoint. -/
theorem C4_cancelled_delivers_nothing_further (env : Env) (flag : ℕ → Bool)
    (hc : (run env flag).outcome = Outcome.cancelled) :
    (∀ m, Event.error m ∉ (run env flag).events) ∧
    (∀ t, Event.result t ∉ (run env flag).events) ∧
    (run env flag).events <+: (run env flagOn).events := by
  have hb : (runBody env flag).outcome = Outcome.cancelled := by
    cases h : (runBody env flag).outcome with
    | success t => simp [run, h] at hc
    | failed m => simp [run, h] at hc
    | cancelled => rfl
  have hrun : run env flag = runBody env flag := by
    simp [run, hb]
  obtain ⟨hne, hnr, hpre⟩ := runBody_cancelled env flag hb
  rw [hrun]
  refine ⟨hne, hnr, hpre.trans ?_⟩
  cases h : (runBody env flagOn).outcome with
  | success t =>
    have heq : run env flagOn = runBody env flagOn := by simp [run, h]
    rw [heq]
  | failed m =>
    have heq : (run env flagOn).events =
        (runBody env flagOn).events ++ [Event.monitor false "" 0, Event.error m] := by
      simp [run, h]
    rw [heq]
    exact List.prefix_append _ _
  | cancelled =>
    have heq : run env flagOn = runBody env flagOn := by simp [run, h]
    rw [heq]

/-! ### Claim C2: final progress on success -/

theorem segLoop_done_allOn {flag : ℕ → Bool} {dur : ℚ} {segs : List Segment}
    {k : ℕ} {acc : String}
    (hdone : (segLoop flag dur segs k acc).2.2 = true) :
    segLoop flag dur segs k acc =
      (segEvents dur segs, List.foldl (fun a s => a ++ s.text) acc segs, true) := by
  rw [(segLoop_trunc flag dur segs k acc).2 hdone]
  exact segLoop_allOn flagOn (fun _ => rfl) dur segs k acc

theorem progressValues_append (a b : List Event) :
    progressValues (a ++ b) = progressValues a ++ progressValues b :=
  List.filterMap_append a b progressOf

theorem inferPhase_success (env : Env) (flag : ℕ → Bool) (t : String)
    (h : (inferPhase env flag).outcome = Outcome.success t) :
    (inferPhase env flag).events =
      [Event.status "🎧 正在分析语音内容...", Event.status "📝 正在生成文字..."] ++
        segEvents env.duration env.segments ++
        [Event.progress 100, Event.status "✅ 转换完成！", Event.result t] ∧
    t = List.foldl (fun a s => a ++ s.text) "" env.segments := by
  cases htr : env.transcribeError with
  | some m => simp [inferPhase, htr] at h
  | none =>
    cases hdone : (segLoop flag env.duration env.segments 2 "").2.2 with
    | false => simp [inferPhase, htr, hdone] at h
    | true =>
      have hd := segLoop_done_allOn hdone
      have ht : List.foldl (fun a s => a ++ s.text) "" env.segments = t := by
        simpa [inferPhase, htr, hd] using h
      refine ⟨?_, ht.symm⟩
      simp [inferPhase, htr, hd, ht]

theorem run_success_shape (env : Env) (flag : ℕ → Bool) (t : String)
    (h : (run env flag).outcome = Outcome.success t) :
    progressValues (run env flag).events =
      [40, 50] ++ progressValues (segEvents env.duration env.segments) ++ [100] ∧
    ∃ pre, (run env flag).events =
      pre ++ [Event.progress 100, Event.status "✅ 转换完成！", Event.result t] := by
  have hb : (runBody env flag).outcome = Outcome.success t := by
    cases hx : (runBody env flag).outcome with
    | success u =>
      have heq : run env flag = runBody env flag := by simp [run, hx]
      rw [heq, hx] at h
      exact h
    | failed m => simp [run, hx] at h
    | cancelled => simp [run, hx] at h
  have hrun : run env flag = runBody env flag := by simp [run, hb]
  obtain ⟨pre0, hev0, hpv0, ha⟩ : ∃ pre0,
      (runBody env flag).events = pre0 ++ (afterDlPhase env flag).events ∧
      progressValues pre0 = [] ∧
      (afterDlPhase env flag).outcome = Outcome.success t := by
    rcases hdl : env.dlError with _ | m
    · refine ⟨[Event.status "⏳ 正在校验模型...",
        Event.monitor true (modelDir env) (expectedMbOf env.modelCode),
        Event.monitor false "" 0], ?_, by simp [progressValues, progressOf], ?_⟩
      · simp [runBody, hdl]
      · simpa [runBody, hdl] using hb
    · by_cases hcond : env.dirExistsAfterDl = true ∧
          (expectedMbOf env.modelCode : ℚ) * (8/10) < env.cacheSizeMb
      · refine ⟨[Event.status "⏳ 正在校验模型...",
          Event.monitor true (modelDir env) (expectedMbOf env.modelCode),
          Event.monitor false "" 0,
          Event.status "⚠️ 网络微恙，尝试使用本地缓存...",
          Event.monitor false "" 0], ?_, by simp [progressValues, progressOf], ?_⟩
        · simp [runBody, hdl, hcond]
        · simpa [runBody, hdl, hcond] using hb
      · simp [runBody, hdl, hcond] at hb
  have h0 : flag 0 = true := by
    cases h0 : flag 0 with
    | true => rfl
    | false => simp [afterDlPhase, h0] at ha
  have hl : (loadPhase env flag).outcome = Outcome.success t := by
    simpa [afterDlPhase, h0] using ha
  have haEv : (afterDlPhase env flag).events =
      [Event.stage "加载中 {0}%", Event.progress 40,
        Event.status "🧠 正在唤醒 AI 引擎..."] ++ (loadPhase env flag).events := by
    simp [afterDlPhase, h0]
  cases hdir : env.dirExistsBeforeLoad with
  | false => simp [loadPhase, hdir] at hl
  | true =>
  cases hload : env.loadError with
  | some m => simp [loadPhase, hdir, hload] at hl
  | none =>
  cases h1 : flag 1 with
  | false => simp [loadPhase, hdir, hload, h1] at hl
  | true =>
  have hi : (inferPhase env flag).outcome = Outcome.success t := by
    simpa [loadPhase, hdir, hload, h1] using hl
  have hlEv : (loadPhase env flag).events =
      [Event.stage "识别中 {0}%", Event.progress 50] ++ (inferPhase env flag).events := by
    simp [loadPhase, hdir, hload, h1]
  obtain ⟨hiEv, -⟩ := inferPhase_success env flag t hi
  constructor
  · rw [hrun, hev0, progressValues_append, hpv0, List.nil_append, haEv,
      progressValues_append, hlEv, progressValues_append, hiEv,
      progressValues_append, progressValues_append]
    simp [progressValues, progressOf]
  · refine ⟨pre0 ++ [Event.stage "加载中 {0}%", Event.progress 40,
      Event.status "🧠 正在唤醒 AI 引擎..."] ++ [Event.stage "识别中 {0}%", Event.progress 50] ++
      [Event.status "🎧 正在分析语音内容...", Event.status "📝 正在生成文字..."] ++
      segEvents env.duration env.segments, ?_⟩
    rw [hrun, hev0, haEv, hlEv, hiEv]
    simp [List.append_assoc]

theorem segEvents_vals_le {dur : ℚ} {segs : List Segment}
    (hseg : ∀ s ∈ segs, s.endTime ≤ dur) :
    ∀ v ∈ progressValues (segEvents dur segs), v ≤ 98 := by
  intro v hv
  unfold progressValues segEvents at hv
  split at hv
  · next hdur =>
    obtain ⟨e, he, hfe⟩ := List.mem_filterMap.mp hv
    obtain ⟨s, hs, rfl⟩ := List.mem_map.mp he
    have hv' : v = 50 + pyInt (s.endTime / dur * 48) := by
      simpa [progressOf] using hfe.symm
    have hle : s.endTime / dur * 48 ≤ ((48 : ℤ) : ℚ) := by
      have h1 : s.endTime / dur ≤ 1 := (div_le_one hdur).mpr (hseg s hs)
      push_cast
      nlinarith
    have := pyInt_le hle
    omega
  · simp at hv

theorem creep_le_top (p : ℚ) : auto_creep_progress p ≤ max p 99 := by
  unfold auto_creep_progress
  split
  · unfold clampTop
    split
    · exact le_max_right p 99
    · next h => exact (not_le.mp h).le.trans (le_max_right p 99)
  · exact le_max_left p 99

theorem ui_fold_le_100 :
    ∀ (steps : List UiStep) (p : ℚ), p ≤ 100 →
      (∀ v, UiStep.sp v ∈ steps → v ≤ (100 : ℤ)) →
      List.foldl uiApply p steps ≤ 100
  | [], p, hp, _ => hp
  | st :: steps, p, hp, hv => by
    rw [List.foldl_cons]
    apply ui_fold_le_100 steps
    · cases st with
      | sp v =>
        have hv100 : (v : ℚ) ≤ 100 := by
          exact_mod_cast hv v (List.mem_cons_self _ _)
        simp only [uiApply]
        unfold set_progress
        split
        · exact hv100
        · exact hp
      | creep => exact le_trans (creep_le_top p) (max_le hp (by norm_num))
    · intro v hvmem
      exact hv v (List.mem_cons_of_mem _ hvmem)

theorem set_progress_100 {p : ℚ} (hp : p ≤ 100) : set_progress p 100 = 100 := by
  unfold set_progress
  split
  · rfl
  · next h => exact le_antisymm hp (not_lt.mp h)

/-- C2 amended: for a job that terminates with `result`, provided every
backend segment ends no later than the reported total duration, all
emitted progress values are at most 100, the last progress event before
`result` carries exactly 100 (only the completion status sits between
them), and the success handler's `set_progress(100)` leaves the displayed
value — however progress events and creep ticks were interleaved on the UI
side — at exactly 100. -/
theorem C2_amended_final_progress_is_100 (env : Env) (flag : ℕ → Bool) (t : String)
    (hseg : ∀ s ∈ env.segments, s.endTime ≤ env.duration)
    (h : (run env flag).outcome = Outcome.success t) :
    (∀ v ∈ progressValues (run env flag).events, v ≤ 100) ∧
    (progressValues (run env flag).events).getLast? = some 100 ∧
    (∃ pre, (run env flag).events =
      pre ++ [Event.progress 100, Event.status "✅ 转换完成！", Event.result t]) ∧
    (∀ steps : List UiStep,
      (∀ v, UiStep.sp v ∈ steps → v ∈ progressValues (run env flag).events) →
      set_progress (List.foldl uiApply 0 steps) 100 = 100) := by
  obtain ⟨hpv, hpre⟩ := run_success_shape env flag t h
  have hub : ∀ v ∈ progressValues (run env flag).events, v ≤ (100 : ℤ) := by
    intro v hv
    rw [hpv] at hv
    rcases List.mem_append.mp hv with h1 | h1
    · rcases List.mem_append.mp h1 with h2 | h2
      · simp at h2
        omega
      · have := segEvents_vals_le hseg v h2
        omega
    · simp at h1
      omega
  refine ⟨hub, ?_, hpre, ?_⟩
  · rw [hpv]
    exact List.getLast?_concat _
  · intro steps hsteps
    apply set_progress_100
    apply ui_fold_le_100 steps 0 (by norm_num)
    intro v hvmem
    exact hub v (hsteps v hvmem)

/-! ### Concrete evaluations: counterexample for C2 and witnesses -/

attribute [local semireducible] Rat.add Rat.mul Rat.sub Rat.inv Rat.ofScientific

/-- C2 counterexample: when the backend reports a segment ending after the
reported total duration (duration 1, segment end 10), the run still
terminates with `result`, but the per-segment progress event carries
`50 + int((10/1)*48) = 530 > 100`, and folding the emitted progress values
through `set_progress` followed by the success handler's
`set_progress(100)` leaves the displayed value at 530, not 100. -/
theorem C2_counterexample_overrun_segment :
    (run envOverrun flagOn).outcome = Outcome.success "x" ∧
    progressValues (run envOverrun flagOn).events = [40, 50, 530, 100] ∧
    set_progress (List.foldl (fun p v => set_progress p (v : ℚ)) 0
      (progressValues (run envOverrun flagOn).events)) 100 = 530 ∧
    (530 : ℚ) ≠ 100 := by
  refine ⟨rfl, by decide, by decide, by decide⟩

/-- C2 witness for the amended theorem, at a well-formed environment. -/
theorem C2_amended_witness :
    (∀ s ∈ envOk.segments, s.endTime ≤ envOk.duration) ∧
    ((∀ v ∈ progressValues (run envOk flagOn).events, v ≤ 100) ∧
      (progressValues (run envOk flagOn).events).getLast? = some 100 ∧
      (∃ pre, (run envOk flagOn).events =
        pre ++ [Event.progress 100, Event.status "✅ 转换完成！", Event.result "你好世界"]) ∧
      (∀ steps : List UiStep,
        (∀ v, UiStep.sp v ∈ steps → v ∈ progressValues (run envOk flagOn).events) →
        set_progress (List.foldl uiApply 0 steps) 100 = 100)) :=
  ⟨by decide, C2_amended_final_progress_is_100 envOk flagOn "你好世界" (by decide) rfl⟩

/-- C3 witness: the all-true flag satisfies the hypothesis and the
successful sample run has exactly one terminal event. -/
theorem C3_witness :
    (∀ k, flagOn k = true) ∧
    ((run envOk flagOn).events.countP isTerminal = 1 ∧
      ∀ m t, Event.error m ∈ (run envOk flagOn).events →
        Event.result t ∉ (run envOk flagOn).events) :=
  ⟨fun _ => rfl, C3_exactly_one_terminal_event envOk flagOn fun _ => rfl⟩

/-- C4 witness: cancelling before the first checkpoint yields a cancelled
outcome, and the theorem applies. -/
theorem C4_witness :
    (run envOk flagOff).outcome = Outcome.cancelled ∧
    ((∀ m, Event.error m ∉ (run envOk flagOff).events) ∧
      (∀ t, Event.result t ∉ (run envOk flagOff).events) ∧
      (run envOk flagOff).events <+: (run envOk flagOn).events) :=
  ⟨rfl, C4_cancelled_delivers_nothing_further envOk flagOff rfl⟩

/-- C5 witness: the 50MB scenario at 10MB measured. -/
theorem C5_witness :
    (0 : ℤ) ≤ 10 ∧
    (monitor_pct 10 50 = specDownloadPct ((10 : ℤ) : ℚ) ((50 : ℤ) : ℚ) ∧
      0 ≤ monitor_pct 10 50 ∧ monitor_pct 10 50 ≤ 39 ∧
      (∀ c' : ℤ, 10 ≤ c' → monitor_pct 10 50 ≤ monitor_pct c' 50) ∧
      monitor_pct 10 50 = 7 ∧ monitor_pct 50 50 = 39) :=
  ⟨by decide, C5_download_pct_clamped_formula 10 50 (by decide)⟩

/-- C6 witness: three creep ticks from 45 stay at integer value at most 49,
and from 60 at most 99. -/
theorem C6_witness :
    ⌊auto_creep_progress^[3] (45 : ℚ)⌋ ≤ 49 ∧
    ⌊auto_creep_progress^[3] (60 : ℚ)⌋ ≤ 99 :=
  ⟨(C6_creep_never_reaches_phase_ceiling 45 3).1 (by norm_num) (by norm_num),
    (C6_creep_never_reaches_phase_ceiling 60 3).2 (by norm_num) (by norm_num)⟩

/-- C7 witness for the amended theorem, in both bands. -/
theorem C7_amended_witness :
    (auto_creep_progress (45 : ℚ) = 45 + 1/10 ∧ auto_creep_progress (45 : ℚ) < 499/10) ∧
    (auto_creep_progress (60 : ℚ) = 60 + 1/20 ∧ auto_creep_progress (60 : ℚ) < 99) :=
  ⟨(C7_amended_fixed_increment 45).1 (by norm_num) (by norm_num),
    (C7_amended_fixed_increment 60).2 (by norm_num) (by norm_num)⟩

/-- C8 witness: a download failure with an undersized cache (10MB measured
against 145MB expected for the base tier). -/
theorem C8_witness :
    envDlFail.dlError = some "timeout" ∧
    (((Event.status "⚠️ 网络微恙，尝试使用本地缓存..." ∈ (run envDlFail flagOn).events) ↔
      (envDlFail.dirExistsAfterDl = true ∧
        (expectedMbOf envDlFail.modelCode : ℚ) * (8/10) < envDlFail.cacheSizeMb)) ∧
      (¬(envDlFail.dirExistsAfterDl = true ∧
          (expectedMbOf envDlFail.modelCode : ℚ) * (8/10) < envDlFail.cacheSizeMb) →
        (run envDlFail flagOn).outcome = Outcome.failed (dlFailMsg "timeout") ∧
        ∃ a b : String, dlFailMsg "timeout" = a ++ hintString ++ b)) :=
  ⟨rfl, C8_degraded_mode_iff_cache_viable envDlFail flagOn "timeout" rfl⟩

/-- C9 witness: a model-construction failure with the cache directory
present. -/
theorem C9_witness :
    envLoadCrash.dlError = none ∧ flagOn 0 = true ∧
    envLoadCrash.dirExistsBeforeLoad = true ∧ envLoadCrash.loadError = some "boom" ∧
    envLoadCrash.dirExistsAtCleanup = true ∧
    ((run envLoadCrash flagOn).rmtreeCalls = [modelDir envLoadCrash] ∧
      (run envLoadCrash flagOn).outcome = Outcome.failed (loadFailMsg "boom") ∧
      (run envLoadCrash flagOn).events.countP isTerminal = 1 ∧
      (run envLoadCrash flagOn).events.getLast? = some (Event.error (loadFailMsg "boom")) ∧
      ∀ t, Event.result t ∉ (run envLoadCrash flagOn).events) :=
  ⟨rfl, rfl, rfl, rfl, rfl,
    C9_load_crash_removes_cache envLoadCrash flagOn "boom" rfl rfl rfl rfl rfl⟩

/-- C10 witness: the successful sample run concatenates the two segment
texts. -/
theorem C10_witness :
    (∀ k, flagOn k = true) ∧ envOk.dlError = none ∧
    envOk.dirExistsBeforeLoad = true ∧ envOk.loadError = none ∧
    envOk.transcribeError = none ∧
    ((run envOk flagOn).outcome =
      Outcome.success (List.foldl (fun a s => a ++ s.text) "" envOk.segments) ∧
      (envOk.duration ≤ 0 → progressValues (run envOk flagOn).events = [40, 50, 100])) :=
  ⟨fun _ => rfl, rfl, rfl, rfl, rfl,
    C10_result_concat_and_skip_zero_duration envOk flagOn (fun _ => rfl) rfl rfl rfl rfl⟩

end LoveTranscriber
